import Mathlib

/-!
Verification of `dancing/bracket_analysis.py` (class `BracketAnalysis`).

The analysed module orchestrates bracket-pool simulations and aggregates
statistics over the winning brackets.  Its collaborators
(`dancing.cbb_brackets.Bracket`/`Pool`, `create_teams_from_standings`) are
external to the analysed file; following the system description, a bracket is
modelled by its games together with the outcome of one call to
`simulate_tournament`, and `Pool.simulate_pool` is modelled as a fallible
oracle producing a ranked result table.  Python floats are modelled by exact
rational arithmetic (`ℚ`); Python dicts are modelled by insertion-ordered
association lists, which is the iteration order `dict` guarantees.
-/

namespace BracketAnalysis

/-- Modelled from the spec: a Team has an identity (name), an integer seed
(1 = strongest) and a conference affiliation (`dancing.cbb_brackets` is not
part of the analysed source). -/
structure Team where
  name : String
  seed : Nat
  conference : String
deriving DecidableEq

/-- Modelled from the spec: a Game pairs two teams and carries a resolved
winner, nullable until simulated.  The upset factor plays no role in the
aggregation code and is omitted. -/
structure Game where
  team1 : Team
  team2 : Team
  winner : Option Team
deriving DecidableEq

/-- Modelled from the spec: the value of `Bracket.simulate_tournament()` — a
mapping from round name to the advancing teams, plus a distinguished
"Champion" team.  `rounds` models the `results.items()` view iterated by the
analysis code (a list entry keyed "Champion" is possible and is skipped by
that code), `champion` models the `results["Champion"]` lookup. -/
structure TourneyResult where
  rounds : List (String × List Team)
  champion : Team
deriving DecidableEq

/-- A winning bracket as consumed by the aggregation code: its games and the
result of re-simulating its tournament. -/
structure BracketSim where
  games : List Game
  result : TourneyResult
deriving DecidableEq

/-- `BracketAnalysis.ROUND_ORDER` class constant. -/
def ROUND_ORDER : List String :=
  ["First Round", "Second Round", "Sweet 16", "Elite 8", "Final Four", "Championship"]

/-- Position of a round name in `ROUND_ORDER`; names outside the canonical
list get the past-the-end position (mirroring pandas putting NaN sort keys
last after `summary["round"].map {...}`). -/
def roundIdx (r : String) : Nat :=
  (ROUND_ORDER.findIdx? (fun s => s == r)).getD ROUND_ORDER.length

/-- `EXPECTED_MAX_SEEDS` table of `find_common_underdogs`.  The source is a
dict whose lookup raises `KeyError` for a round name outside the table; we
default to 0, and theorems touching the lookup restrict to canonical round
names where the two agree. -/
def EXPECTED_MAX_SEEDS (r : String) : Nat :=
  if r = "First Round" then 16
  else if r = "Second Round" then 8
  else if r = "Sweet 16" then 4
  else if r = "Elite 8" then 2
  else if r = "Final Four" then 1
  else if r = "Championship" then 1
  else 0

/-- One step of `defaultdict(int)`: increment the counter of `k`, first
occurrence in insertion order, appending a fresh key with count 1. -/
def bumpCount {K : Type} [DecidableEq K] (l : List (K × Nat)) (k : K) : List (K × Nat) :=
  match l with
  | [] => [(k, 1)]
  | (k0, c) :: rest =>
    if k0 = k then (k0, c + 1) :: rest else (k0, c) :: bumpCount rest k

/-- One step of `defaultdict(list)`: append `v` to the list stored at `k`,
appending a fresh key with a singleton list. -/
def addSample (l : List (String × List Nat)) (k : String) (v : Nat) :
    List (String × List Nat) :=
  match l with
  | [] => [(k, [v])]
  | (k0, vs) :: rest =>
    if k0 = k then (k0, vs ++ [v]) :: rest else (k0, vs) :: addSample rest k v

/-- The per-team upset test of `analyze_upsets`: some game of the bracket has
this team as winner with the winner's seed strictly greater than the seed of
the game's first-listed team. -/
def gameUpsetFor (team : Team) (g : Game) : Bool :=
  match g.winner with
  | some w => w == team && decide (g.team1.seed < w.seed)
  | none => false

/-- `sum(1 for team in teams if any(t for t in bracket.games if t.winner == team
and t.winner.seed > t.team1.seed))`. -/
def countUpsets (games : List Game) (teams : List Team) : Nat :=
  teams.countP (fun team => games.any (gameUpsetFor team))

/-- The `upset_stats` accumulator of `analyze_upsets`: per round name (skipping
"Champion"), one upset-count sample per bracket, in bracket order. -/
def upset_stats (brackets : List BracketSim) : List (String × List Nat) :=
  brackets.foldl (fun acc b =>
    b.result.rounds.foldl (fun acc2 p =>
      if p.1 = "Champion" then acc2
      else addSample acc2 p.1 (countUpsets b.games p.2)) acc) []

/-- Mean of a sample list, as pandas `mean` (exact rational model). -/
def meanQ (l : List Nat) : ℚ :=
  (l.map (fun x => (x : ℚ))).sum / l.length

/-- Sample variance with one delta degree of freedom, i.e. the square of the
pandas `std` reported in `std_upsets`; `none` models the NaN pandas returns
for fewer than two samples. -/
def sampleVarQ (l : List Nat) : Option ℚ :=
  if l.length < 2 then none
  else some ((l.map (fun x => ((x : ℚ) - meanQ l) ^ 2)).sum / ((l.length : ℚ) - 1))

/-- Minimum of a sample list (`0` for the empty list, which never occurs). -/
def minNat (l : List Nat) : Nat := l.min?.getD 0

/-- Maximum of a sample list (`0` for the empty list, which never occurs). -/
def maxNat (l : List Nat) : Nat := l.max?.getD 0

/-- One row of the `summary` table of `analyze_upsets`.  `var_upsets` carries
the square of the reported `std_upsets` (`none` = NaN), which determines it. -/
structure SummaryRow where
  round : String
  avg_upsets : ℚ
  var_upsets : Option ℚ
  min_upsets : Nat
  max_upsets : Nat
deriving DecidableEq

/-- Build the summary row of one round from its collected samples. -/
def mkSummaryRow (p : String × List Nat) : SummaryRow :=
  ⟨p.1, meanQ p.2, sampleVarQ p.2, minNat p.2, maxNat p.2⟩

/-- Sort key comparison of `summary.sort_values("round_order")`. -/
def summaryLE (a b : SummaryRow) : Bool :=
  decide (roundIdx a.round ≤ roundIdx b.round)

/-- `BracketAnalysis.analyze_upsets`, as a function of the winning brackets
(each paired with its re-simulated tournament result). -/
def analyze_upsets (brackets : List BracketSim) : List SummaryRow :=
  ((upset_stats brackets).map mkSummaryRow).mergeSort summaryLE

/-- The `upset_counts` accumulator of `find_common_underdogs`: counts per
(round, seed, team-name) key of teams whose seed strictly exceeds the
round's expected maximum seed, "Champion" skipped. -/
def underdog_counts (brackets : List BracketSim) :
    List ((String × Nat × String) × Nat) :=
  brackets.foldl (fun acc b =>
    b.result.rounds.foldl (fun acc2 p =>
      if p.1 = "Champion" then acc2
      else p.2.foldl (fun acc3 t =>
        if EXPECTED_MAX_SEEDS p.1 < t.seed then bumpCount acc3 (p.1, t.seed, t.name)
        else acc3) acc2) acc) []

/-- One row of the `find_common_underdogs` output table, after the
`round → make_it_to` rename of the non-empty path. -/
structure UnderdogRow where
  make_it_to : String
  seed : Nat
  team : String
  frequency : ℚ
deriving DecidableEq

/-- The `find_common_underdogs` return value: a table with explicit column
labels, so that the differing schemas of the empty and non-empty paths are
observable. -/
structure UnderdogTable where
  columns : List String
  rows : List UnderdogRow
deriving DecidableEq

/-- Sort comparison of `sort_values(["round_order", "frequency"],
ascending=[True, False])`. -/
def underdogLE (a b : UnderdogRow) : Bool :=
  decide (roundIdx a.make_it_to < roundIdx b.make_it_to) ||
    (decide (roundIdx a.make_it_to = roundIdx b.make_it_to) &&
      decide (b.frequency ≤ a.frequency))

/-- `BracketAnalysis.find_common_underdogs`.  Note the empty path returns the
schema `["round", ...]`: the rename to `make_it_to` happens only after the
`upsets_df.empty` early return. -/
def find_common_underdogs (brackets : List BracketSim) (num_pools : Nat) :
    UnderdogTable :=
  let rows := (underdog_counts brackets).map (fun kc =>
    UnderdogRow.mk kc.1.1 kc.1.2.1 kc.1.2.2 ((kc.2 : ℚ) / (num_pools : ℚ)))
  if rows.isEmpty then ⟨["round", "seed", "team", "frequency"], []⟩
  else ⟨["make_it_to", "seed", "team", "frequency"], rows.mergeSort underdogLE⟩

/-- The `champion_counts` accumulator of `analyze_champion_picks`: one
increment per bracket, keyed by the champion's (seed, name, conference). -/
def champion_counts (brackets : List BracketSim) :
    List ((Nat × String × String) × Nat) :=
  brackets.foldl (fun acc b =>
    bumpCount acc (b.result.champion.seed, b.result.champion.name,
      b.result.champion.conference)) []

/-- One row of the `analyze_champion_picks` output. -/
structure ChampionRow where
  seed : Nat
  team : String
  conference : String
  frequency : ℚ
deriving DecidableEq

/-- Sort comparison of `sort_values("frequency", ascending=False)`. -/
def championLE (a b : ChampionRow) : Bool :=
  decide (b.frequency ≤ a.frequency)

/-- `BracketAnalysis.analyze_champion_picks`.  With no winning brackets the
row list is empty, `pd.DataFrame([])` has no columns at all, and
`sort_values("frequency")` raises `KeyError` — modelled by the error case. -/
def analyze_champion_picks (brackets : List BracketSim) (num_pools : Nat) :
    Except String (List ChampionRow) :=
  let rows := (champion_counts brackets).map (fun kc =>
    ChampionRow.mk kc.1.1 kc.1.2.1 kc.1.2.2 ((kc.2 : ℚ) / (num_pools : ℚ)))
  if rows.isEmpty then Except.error "KeyError: frequency"
  else Except.ok (rows.mergeSort championLE)

/-- The `upset_factors` list of `simulate_pools`:
`[0.1 + (j/entries_per_pool)*0.3 for j in range(entries_per_pool)]`. -/
def upset_factors (entries_per_pool : Nat) : List ℚ :=
  (List.range entries_per_pool).map (fun (j : Nat) =>
    1/10 + ((j : ℚ) / (entries_per_pool : ℚ)) * (3/10))

/-- The synthetic entry name `f"Entry_{j+1}"`. -/
def entry_name (j : Nat) : String := "Entry_" ++ toString (j + 1)

/-- One row of a `Pool.simulate_pool` ranked result table; only the `name`
column is consulted by the driver, the remaining columns are opaque. -/
structure PoolRow where
  name : String
deriving DecidableEq

/-- The `pool.entries` collection of pool `i` after the driver registered its
`entries_per_pool` entries: name/bracket pairs, an entry bracket being
identified by its (pool index, entry index). -/
def pool_entries (i m : Nat) : List (String × (Nat × Nat)) :=
  (List.range m).map (fun j => (entry_name j, (i, j)))

/-- The collections `simulate_pools` populates (the `pools` list holds only
collaborator objects and is not modelled). -/
structure DriverState where
  winning_brackets : List (Nat × Nat)
  all_results : List (Nat × PoolRow)
deriving DecidableEq

/-- One iteration of the `simulate_pools` loop for pool `i`, given the value
of the fallible collaborator call `pool.simulate_pool(num_sims=1000)`:
`iloc[0]` on an empty table raises; the `[...][0]` lookup of the winning
entry raises on an empty match; otherwise the winning bracket is appended
and the result rows are tagged with `pool_id = i` and appended. -/
def run_pool (m i : Nat) (sim : Except String (List PoolRow)) (st : DriverState) :
    Except String DriverState :=
  match sim with
  | Except.error e => Except.error e
  | Except.ok [] => Except.error "IndexError: single positional indexer is out-of-bounds"
  | Except.ok (top :: rest) =>
    match (pool_entries i m).filter (fun e => e.1 == top.name) with
    | [] => Except.error "IndexError: list index out of range"
    | e :: _ =>
      Except.ok ⟨st.winning_brackets ++ [e.2],
        st.all_results ++ (top :: rest).map (fun r => (i, r))⟩

/-- The `for i in range(self.num_pools)` loop of `simulate_pools`: pools are
processed in order and the first uncaught exception aborts the loop. -/
def run_pools (m : Nat) (pool_sim : Nat → Except String (List PoolRow)) :
    List Nat → DriverState → Except String DriverState
  | [], st => Except.ok st
  | i :: idxs, st =>
    match run_pool m i (pool_sim i) st with
    | Except.error e => Except.error e
    | Except.ok st2 => run_pools m pool_sim idxs st2

/-- `BracketAnalysis.simulate_pools`, parameterised by the per-pool outcome of
the `simulate_pool` collaborator call. -/
def simulate_pools (num_pools m : Nat)
    (pool_sim : Nat → Except String (List PoolRow)) : Except String DriverState :=
  run_pools m pool_sim (List.range num_pools) ⟨[], []⟩

/-- The row list a `simulate_pool` call produced (`[]` when it raised). -/
def sim_rows (pool_sim : Nat → Except String (List PoolRow)) (i : Nat) :
    List PoolRow :=
  match pool_sim i with
  | Except.ok rows => rows
  | Except.error _ => []

/-- Pool `i` fails: the collaborator raised, its ranked table was empty, or no
registered entry name matches the winning name. -/
def pool_failure (m i : Nat) (sim : Except String (List PoolRow)) : Prop :=
  match sim with
  | Except.error _ => True
  | Except.ok [] => True
  | Except.ok (top :: _) => (pool_entries i m).filter (fun e => e.1 == top.name) = []

/-- A collaborator stub whose ranked table is always won by `Entry_2`. -/
def demoSim : Nat → Except String (List PoolRow) :=
  fun _ => Except.ok [PoolRow.mk (entry_name 1)]

/-- A collaborator stub whose winning name matches no registered entry. -/
def demoBadSim : Nat → Except String (List PoolRow) :=
  fun _ => Except.ok [PoolRow.mk "Nobody"]

/-- Value stored at the first occurrence of key `k` (0 when absent). -/
def valAt {K : Type} [DecidableEq K] (l : List (K × Nat)) (k : K) : Nat :=
  match l with
  | [] => 0
  | (k0, c) :: rest => if k0 = k then c else valAt rest k

/-- Sample list stored at the first occurrence of key `k` (`[]` when absent). -/
def samplesAt (l : List (String × List Nat)) (k : String) : List Nat :=
  match l with
  | [] => []
  | (k0, vs) :: rest => if k0 = k then vs else samplesAt rest k

/-- Indicator: team `t` of round `rn` produces one increment of the underdog
counter keyed `k`. -/
def teamHits (rn : String) (k : String × Nat × String) (t : Team) : Nat :=
  if EXPECTED_MAX_SEEDS rn < t.seed ∧ (rn, t.seed, t.name) = k then 1 else 0

/-- Increments of the underdog counter keyed `k` contributed by one round
entry of a tournament result. -/
def roundHits (k : String × Nat × String) (p : String × List Team) : Nat :=
  if p.1 = "Champion" then 0 else (p.2.map (teamHits p.1 k)).sum

/-- Increments of the underdog counter keyed `k` contributed by one winning
bracket. -/
def bracketHits (k : String × Nat × String) (b : BracketSim) : Nat :=
  (b.result.rounds.map (roundHits k)).sum

/-- The advancing teams a tournament result lists under round `r` (first
matching entry). -/
def roundTeams (b : BracketSim) (r : String) : List Team :=
  ((b.result.rounds.find? (fun p => p.1 == r)).map Prod.snd).getD []

/-- The champion key `(seed, name, conference)` of a winning bracket. -/
def champKey (b : BracketSim) : Nat × String × String :=
  (b.result.champion.seed, b.result.champion.name, b.result.champion.conference)

/-- A strong top seed, used in concrete checks. -/
def demoTop : Team := ⟨"Gonzaga", 1, "WCC"⟩

/-- A weak seed, used in concrete checks. -/
def demoDog : Team := ⟨"FGCU", 9, "ASUN"⟩

/-- A winning bracket whose re-simulation sends the 9 seed through the 1
seed into the second round and the title. -/
def demoBracket : BracketSim :=
  ⟨[⟨demoTop, demoDog, some demoDog⟩],
    ⟨[("First Round", [demoTop, demoDog]), ("Second Round", [demoDog]),
      ("Champion", [demoDog])], demoDog⟩⟩

/-- A winning bracket whose re-simulation produces no underdog at all. -/
def demoCalm : BracketSim :=
  ⟨[], ⟨[("First Round", [demoTop])], demoTop⟩⟩

theorem foldl_preserve {α σ : Type _} (P : σ → Prop) (f : σ → α → σ)
    (h : ∀ s a, P s → P (f s a)) :
    ∀ (l : List α) (s : σ), P s → P (l.foldl f s)
  | [], _, hs => hs
  | a :: l, s, hs => foldl_preserve P f h l (f s a) (h s a hs)

theorem valAt_bumpCount {K : Type} [DecidableEq K] (l : List (K × Nat)) (k k' : K) :
    valAt (bumpCount l k) k' = valAt l k' + if k' = k then 1 else 0 := by
  induction l with
  | nil =>
    by_cases h : k' = k
    · simp [bumpCount, valAt, h]
    · have h2 : ¬ k = k' := fun h3 => h h3.symm
      simp [bumpCount, valAt, h, h2]
  | cons hd tl ih =>
    obtain ⟨k0, c⟩ := hd
    by_cases h : k0 = k
    · subst h
      by_cases h2 : k0 = k'
      · subst h2
        simp [bumpCount, valAt]
      · have h3 : ¬ k' = k0 := fun h4 => h2 h4.symm
        simp [bumpCount, valAt, h2, h3]
    · by_cases h2 : k0 = k'
      · subst h2
        simp [bumpCount, valAt, h]
      · simp [bumpCount, valAt, h, h2, ih]

theorem mem_bumpCount {K : Type} [DecidableEq K] {l : List (K × Nat)} {k : K}
    {p : K × Nat} (hp : p ∈ bumpCount l k) : p.1 = k ∨ p ∈ l := by
  induction l with
  | nil =>
    simp only [bumpCount, List.mem_singleton] at hp
    subst hp; exact Or.inl rfl
  | cons hd tl ih =>
    obtain ⟨k0, c⟩ := hd
    by_cases h : k0 = k
    · simp only [bumpCount, if_pos h, List.mem_cons] at hp
      rcases hp with hp | hp
      · subst hp; exact Or.inl h
      · exact Or.inr (List.mem_cons_of_mem _ hp)
    · simp only [bumpCount, if_neg h, List.mem_cons] at hp
      rcases hp with hp | hp
      · exact Or.inr (by simp [hp])
      · rcases ih hp with h2 | h2
        · exact Or.inl h2
        · exact Or.inr (List.mem_cons_of_mem _ h2)

theorem map_fst_bumpCount {K : Type} [DecidableEq K] (l : List (K × Nat)) (k : K) :
    (bumpCount l k).map Prod.fst =
      if k ∈ l.map Prod.fst then l.map Prod.fst else l.map Prod.fst ++ [k] := by
  induction l with
  | nil => simp [bumpCount]
  | cons hd tl ih =>
    obtain ⟨k0, c⟩ := hd
    by_cases h : k0 = k
    · subst h; simp [bumpCount]
    · simp only [bumpCount, if_neg h, List.map_cons, List.mem_cons]
      have hne : ¬ k = k0 := fun h2 => h h2.symm
      by_cases h2 : k ∈ tl.map Prod.fst
      · simp [h2, hne, ih]
      · simp [h2, hne, ih]

theorem nodup_fst_bumpCount {K : Type} [DecidableEq K] {l : List (K × Nat)} (k : K)
    (h : (l.map Prod.fst).Nodup) : ((bumpCount l k).map Prod.fst).Nodup := by
  rw [map_fst_bumpCount]
  by_cases h2 : k ∈ l.map Prod.fst
  · simpa [h2]
  · simpa [h2, List.nodup_append] using h

theorem bumpCount_pos {K : Type} [DecidableEq K] {l : List (K × Nat)} {k : K}
    (h : ∀ p ∈ l, 1 ≤ p.2) : ∀ p ∈ bumpCount l k, 1 ≤ p.2 := by
  induction l with
  | nil => intro p hp; simp only [bumpCount, List.mem_singleton] at hp; simp [hp]
  | cons hd tl ih =>
    obtain ⟨k0, c⟩ := hd
    intro p hp
    by_cases h2 : k0 = k
    · simp only [bumpCount, if_pos h2, List.mem_cons] at hp
      rcases hp with hp | hp
      · simp [hp]
      · exact h p (List.mem_cons_of_mem _ hp)
    · simp only [bumpCount, if_neg h2, List.mem_cons] at hp
      rcases hp with hp | hp
      · exact h p (by simp [hp])
      · exact ih (fun q hq => h q (List.mem_cons_of_mem _ hq)) p hp

theorem sum_bumpCount {K : Type} [DecidableEq K] (l : List (K × Nat)) (k : K) :
    ((bumpCount l k).map (fun p => p.2)).sum = ((l.map (fun p => p.2)).sum) + 1 := by
  induction l with
  | nil => simp [bumpCount]
  | cons hd tl ih =>
    obtain ⟨k0, c⟩ := hd
    by_cases h : k0 = k
    · simp [bumpCount, h]; omega
    · simp [bumpCount, h, ih]; omega

theorem bumpCount_ne_nil {K : Type} [DecidableEq K] (l : List (K × Nat)) (k : K) :
    bumpCount l k ≠ [] := by
  cases l with
  | nil => simp [bumpCount]
  | cons hd tl =>
    obtain ⟨k0, c⟩ := hd
    by_cases h : k0 = k <;> simp [bumpCount, h]

theorem valAt_of_mem {K : Type} [DecidableEq K] {l : List (K × Nat)}
    (hnd : (l.map Prod.fst).Nodup) {p : K × Nat} (hp : p ∈ l) :
    valAt l p.1 = p.2 := by
  induction l with
  | nil => cases hp
  | cons hd tl ih =>
    obtain ⟨k0, c⟩ := hd
    simp only [List.map_cons, List.nodup_cons] at hnd
    rcases List.mem_cons.mp hp with hp | hp
    · subst hp; simp [valAt]
    · have hne : ¬ k0 = p.1 := by
        intro h2
        exact hnd.1 (h2 ▸ List.mem_map_of_mem Prod.fst hp)
      simp only [valAt, if_neg hne]
      exact ih hnd.2 hp

theorem samplesAt_addSample (l : List (String × List Nat)) (k k' : String) (v : Nat) :
    samplesAt (addSample l k v) k' =
      samplesAt l k' ++ if k' = k then [v] else [] := by
  induction l with
  | nil =>
    by_cases h : k' = k
    · simp [addSample, samplesAt, h]
    · have h2 : ¬ k = k' := fun h3 => h h3.symm
      simp [addSample, samplesAt, h, h2]
  | cons hd tl ih =>
    obtain ⟨k0, vs⟩ := hd
    by_cases h : k0 = k
    · subst h
      by_cases h2 : k0 = k'
      · subst h2
        simp [addSample, samplesAt]
      · have h3 : ¬ k' = k0 := fun h4 => h2 h4.symm
        simp [addSample, samplesAt, h2, h3]
    · by_cases h2 : k0 = k'
      · subst h2
        simp [addSample, samplesAt, h]
      · simp [addSample, samplesAt, h, h2, ih]

theorem mem_addSample {l : List (String × List Nat)} {k : String} {v : Nat}
    {p : String × List Nat} (hp : p ∈ addSample l k v) : p.1 = k ∨ p ∈ l := by
  induction l with
  | nil =>
    simp only [addSample, List.mem_singleton] at hp
    subst hp; exact Or.inl rfl
  | cons hd tl ih =>
    obtain ⟨k0, vs⟩ := hd
    by_cases h : k0 = k
    · simp only [addSample, if_pos h, List.mem_cons] at hp
      rcases hp with hp | hp
      · subst hp; exact Or.inl h
      · exact Or.inr (List.mem_cons_of_mem _ hp)
    · simp only [addSample, if_neg h, List.mem_cons] at hp
      rcases hp with hp | hp
      · exact Or.inr (by simp [hp])
      · rcases ih hp with h2 | h2
        · exact Or.inl h2
        · exact Or.inr (List.mem_cons_of_mem _ h2)

theorem map_fst_addSample (l : List (String × List Nat)) (k : String) (v : Nat) :
    (addSample l k v).map Prod.fst =
      if k ∈ l.map Prod.fst then l.map Prod.fst else l.map Prod.fst ++ [k] := by
  induction l with
  | nil => simp [addSample]
  | cons hd tl ih =>
    obtain ⟨k0, vs⟩ := hd
    by_cases h : k0 = k
    · subst h; simp [addSample]
    · simp only [addSample, if_neg h, List.map_cons, List.mem_cons]
      have hne : ¬ k = k0 := fun h2 => h h2.symm
      by_cases h2 : k ∈ tl.map Prod.fst
      · simp [h2, hne, ih]
      · simp [h2, hne, ih]

theorem nodup_fst_addSample {l : List (String × List Nat)} (k : String) (v : Nat)
    (h : (l.map Prod.fst).Nodup) : ((addSample l k v).map Prod.fst).Nodup := by
  rw [map_fst_addSample]
  by_cases h2 : k ∈ l.map Prod.fst
  · simpa [h2]
  · simpa [h2, List.nodup_append] using h

theorem mem_of_samplesAt {l : List (String × List Nat)} {r : String}
    (h : samplesAt l r ≠ []) : (r, samplesAt l r) ∈ l := by
  induction l with
  | nil => simp [samplesAt] at h
  | cons hd tl ih =>
    obtain ⟨k0, vs⟩ := hd
    by_cases h2 : k0 = r
    · subst h2
      simp [samplesAt]
    · simp only [samplesAt, if_neg h2] at h ⊢
      exact List.mem_cons_of_mem _ (ih h)

theorem indicator_sum_le_one {α β : Type _} [DecidableEq β] (f : α → β)
    (p : α → Prop) [DecidablePred p] (b : β) :
    ∀ l : List α, (l.map f).Nodup →
      (l.map (fun x => if p x ∧ f x = b then 1 else 0)).sum ≤ 1 := by
  intro l
  induction l with
  | nil => simp
  | cons x xs ih =>
    intro hnd
    simp only [List.map_cons, List.nodup_cons] at hnd
    by_cases hx : p x ∧ f x = b
    · simp only [List.map_cons, List.sum_cons, if_pos hx]
      have hz : (xs.map (fun y => if p y ∧ f y = b then 1 else 0)).sum = 0 := by
        apply List.sum_eq_zero
        intro v hv
        simp only [List.mem_map] at hv
        obtain ⟨y, hy, hyv⟩ := hv
        by_cases hyc : p y ∧ f y = b
        · exfalso
          have hfy : f x = f y := by rw [hx.2, hyc.2]
          exact hnd.1 (hfy ▸ List.mem_map_of_mem f hy)
        · rw [if_neg hyc] at hyv
          exact hyv.symm
      omega
    · simp only [List.map_cons, List.sum_cons, if_neg hx]
      have := ih hnd.2
      omega

theorem sum_le_length (l : List Nat) (h : ∀ x ∈ l, x ≤ 1) : l.sum ≤ l.length := by
  induction l with
  | nil => simp
  | cons x xs ih =>
    simp only [List.sum_cons, List.length_cons]
    have h1 := h x (by simp)
    have h2 := ih (fun y hy => h y (by simp [hy]))
    omega

theorem sum_map_div {α : Type _} (l : List α) (f : α → ℚ) (n : ℚ) :
    (l.map (fun a => f a / n)).sum = (l.map f).sum / n := by
  induction l with
  | nil => simp
  | cons x xs ih => simp [ih, add_div]

theorem samplesAt_roundFold (g : List Game) (rounds : List (String × List Team))
    (r : String) (hr : r ≠ "Champion") :
    ∀ acc, samplesAt (rounds.foldl (fun acc2 p =>
        if p.1 = "Champion" then acc2
        else addSample acc2 p.1 (countUpsets g p.2)) acc) r =
      samplesAt acc r ++
        (rounds.filter (fun p => p.1 == r)).map (fun p => countUpsets g p.2) := by
  induction rounds with
  | nil => simp
  | cons p rounds ih =>
    intro acc
    by_cases hc : p.1 = "Champion"
    · have hpr : ¬ (p.1 = r) := fun h => hr (h ▸ hc)
      have hcr : ¬ ("Champion" = r) := fun h => hr h.symm
      simp [List.foldl_cons, hc, List.filter_cons, hpr, hcr, ih]
    · by_cases hpr : p.1 = r
      · simp [List.foldl_cons, hc, ih, samplesAt_addSample, hpr, hr, List.filter_cons]
      · have hpr2 : ¬ (r = p.1) := fun h => hpr h.symm
        simp [List.foldl_cons, hc, ih, samplesAt_addSample, hpr, hpr2, List.filter_cons]

theorem samplesAt_bracketFold (bs : List BracketSim) (r : String) (hr : r ≠ "Champion") :
    ∀ acc, samplesAt (bs.foldl (fun acc b =>
        b.result.rounds.foldl (fun acc2 p =>
          if p.1 = "Champion" then acc2
          else addSample acc2 p.1 (countUpsets b.games p.2)) acc) acc) r =
      samplesAt acc r ++
        bs.flatMap (fun b =>
          (b.result.rounds.filter (fun p => p.1 == r)).map
            (fun p => countUpsets b.games p.2)) := by
  induction bs with
  | nil => simp
  | cons b bs ih =>
    intro acc
    rw [List.foldl_cons, ih, samplesAt_roundFold b.games b.result.rounds r hr]
    simp [List.append_assoc]

theorem samplesAt_upset_stats (bs : List BracketSim) (r : String) (hr : r ≠ "Champion") :
    samplesAt (upset_stats bs) r =
      bs.flatMap (fun b =>
        (b.result.rounds.filter (fun p => p.1 == r)).map
          (fun p => countUpsets b.games p.2)) := by
  have h := samplesAt_bracketFold bs r hr []
  simpa [upset_stats, samplesAt] using h

theorem valAt_teamFold (rn : String) (teams : List Team) (k : String × Nat × String) :
    ∀ acc, valAt (teams.foldl (fun acc3 t =>
        if EXPECTED_MAX_SEEDS rn < t.seed then bumpCount acc3 (rn, t.seed, t.name)
        else acc3) acc) k =
      valAt acc k + (teams.map (teamHits rn k)).sum := by
  induction teams with
  | nil => simp
  | cons t ts ih =>
    intro acc
    by_cases hc : EXPECTED_MAX_SEEDS rn < t.seed
    · rw [List.foldl_cons, if_pos hc, ih, valAt_bumpCount]
      by_cases hk : k = (rn, t.seed, t.name)
      · have hk2 : (rn, t.seed, t.name) = k := hk.symm
        simp only [List.map_cons, List.sum_cons, teamHits, if_pos hk,
          if_pos (And.intro hc hk2)]
        omega
      · have hk2 : ¬ ((rn, t.seed, t.name) = k) := fun h => hk h.symm
        have hk3 : ¬ (EXPECTED_MAX_SEEDS rn < t.seed ∧ (rn, t.seed, t.name) = k) :=
          fun h => hk2 h.2
        simp only [List.map_cons, List.sum_cons, teamHits, if_neg hk, if_neg hk3]
        omega
    · rw [List.foldl_cons, if_neg hc, ih]
      have hk3 : ¬ (EXPECTED_MAX_SEEDS rn < t.seed ∧ (rn, t.seed, t.name) = k) :=
        fun h => hc h.1
      simp only [List.map_cons, List.sum_cons, teamHits, if_neg hk3]
      omega

theorem valAt_roundFold (rounds : List (String × List Team)) (k : String × Nat × String) :
    ∀ acc, valAt (rounds.foldl (fun acc2 p =>
        if p.1 = "Champion" then acc2
        else p.2.foldl (fun acc3 t =>
          if EXPECTED_MAX_SEEDS p.1 < t.seed then bumpCount acc3 (p.1, t.seed, t.name)
          else acc3) acc2) acc) k =
      valAt acc k + (rounds.map (roundHits k)).sum := by
  induction rounds with
  | nil => simp
  | cons p rounds ih =>
    intro acc
    by_cases hc : p.1 = "Champion"
    · rw [List.foldl_cons, if_pos hc, ih]
      simp only [List.map_cons, List.sum_cons, roundHits, if_pos hc]
      omega
    · rw [List.foldl_cons, if_neg hc, ih, valAt_teamFold p.1 p.2 k]
      simp only [List.map_cons, List.sum_cons, roundHits, if_neg hc]
      omega

theorem valAt_bracketFold (bs : List BracketSim) (k : String × Nat × String) :
    ∀ acc, valAt (bs.foldl (fun acc b =>
        b.result.rounds.foldl (fun acc2 p =>
          if p.1 = "Champion" then acc2
          else p.2.foldl (fun acc3 t =>
            if EXPECTED_MAX_SEEDS p.1 < t.seed then bumpCount acc3 (p.1, t.seed, t.name)
            else acc3) acc2) acc) acc) k =
      valAt acc k + (bs.map (bracketHits k)).sum := by
  induction bs with
  | nil => simp
  | cons b bs ih =>
    intro acc
    rw [List.foldl_cons, ih, valAt_roundFold b.result.rounds k]
    simp only [List.map_cons, List.sum_cons, bracketHits]
    omega

theorem valAt_underdog_counts (bs : List BracketSim) (k : String × Nat × String) :
    valAt (underdog_counts bs) k = (bs.map (bracketHits k)).sum := by
  have h := valAt_bracketFold bs k []
  simpa [underdog_counts, valAt] using h

theorem foldl_preserve_mem {α σ : Type _} (P : σ → Prop) :
    ∀ (l : List α) (f : σ → α → σ),
      (∀ s a, a ∈ l → P s → P (f s a)) → ∀ s, P s → P (l.foldl f s)
  | [], _, _, _, hs => hs
  | a :: l, f, h, s, hs =>
    foldl_preserve_mem P l f (fun s b hb => h s b (List.mem_cons_of_mem a hb))
      (f s a) (h s a (List.mem_cons_self a l) hs)

theorem nodup_fst_underdog_counts (bs : List BracketSim) :
    ((underdog_counts bs).map Prod.fst).Nodup := by
  unfold underdog_counts
  refine foldl_preserve
    (fun acc : List ((String × Nat × String) × Nat) => (acc.map Prod.fst).Nodup)
    _ ?_ bs [] (by simp)
  intro acc b hacc
  refine foldl_preserve
    (fun acc2 : List ((String × Nat × String) × Nat) => (acc2.map Prod.fst).Nodup)
    _ ?_ _ _ hacc
  intro acc2 p hacc2
  by_cases hc : p.1 = "Champion"
  · rw [if_pos hc]; exact hacc2
  · rw [if_neg hc]
    refine foldl_preserve
      (fun acc3 : List ((String × Nat × String) × Nat) => (acc3.map Prod.fst).Nodup)
      _ ?_ _ _ hacc2
    intro acc3 t hacc3
    by_cases ht : EXPECTED_MAX_SEEDS p.1 < t.seed
    · rw [if_pos ht]; exact nodup_fst_bumpCount _ hacc3
    · rw [if_neg ht]; exact hacc3

theorem pos_underdog_counts (bs : List BracketSim) :
    ∀ p ∈ underdog_counts bs, 1 ≤ p.2 := by
  unfold underdog_counts
  refine foldl_preserve
    (fun acc : List ((String × Nat × String) × Nat) => ∀ p ∈ acc, 1 ≤ p.2)
    _ ?_ bs [] (by simp)
  intro acc b hacc
  refine foldl_preserve
    (fun acc2 : List ((String × Nat × String) × Nat) => ∀ p ∈ acc2, 1 ≤ p.2)
    _ ?_ _ _ hacc
  intro acc2 p hacc2
  by_cases hc : p.1 = "Champion"
  · rw [if_pos hc]; exact hacc2
  · rw [if_neg hc]
    refine foldl_preserve
      (fun acc3 : List ((String × Nat × String) × Nat) => ∀ p ∈ acc3, 1 ≤ p.2)
      _ ?_ _ _ hacc2
    intro acc3 t hacc3
    by_cases ht : EXPECTED_MAX_SEEDS p.1 < t.seed
    · rw [if_pos ht]; exact bumpCount_pos hacc3
    · rw [if_neg ht]; exact hacc3

theorem origin_underdog_counts (bs : List BracketSim) :
    ∀ p ∈ underdog_counts bs, ∃ b ∈ bs, ∃ rd ∈ b.result.rounds,
      rd.1 ≠ "Champion" ∧ ∃ t ∈ rd.2,
        EXPECTED_MAX_SEEDS rd.1 < t.seed ∧ p.1 = (rd.1, t.seed, t.name) := by
  unfold underdog_counts
  refine foldl_preserve_mem
    (fun acc : List ((String × Nat × String) × Nat) =>
      ∀ p ∈ acc, ∃ b ∈ bs, ∃ rd ∈ b.result.rounds,
        rd.1 ≠ "Champion" ∧ ∃ t ∈ rd.2,
          EXPECTED_MAX_SEEDS rd.1 < t.seed ∧ p.1 = (rd.1, t.seed, t.name))
    bs _ ?_ [] (by simp)
  intro acc b hb hacc
  refine foldl_preserve_mem
    (fun acc2 : List ((String × Nat × String) × Nat) =>
      ∀ p ∈ acc2, ∃ b ∈ bs, ∃ rd ∈ b.result.rounds,
        rd.1 ≠ "Champion" ∧ ∃ t ∈ rd.2,
          EXPECTED_MAX_SEEDS rd.1 < t.seed ∧ p.1 = (rd.1, t.seed, t.name))
    b.result.rounds _ ?_ _ hacc
  intro acc2 rd hrd hacc2
  by_cases hc : rd.1 = "Champion"
  · rw [if_pos hc]; exact hacc2
  · rw [if_neg hc]
    refine foldl_preserve_mem
      (fun acc3 : List ((String × Nat × String) × Nat) =>
        ∀ p ∈ acc3, ∃ b ∈ bs, ∃ rd ∈ b.result.rounds,
          rd.1 ≠ "Champion" ∧ ∃ t ∈ rd.2,
            EXPECTED_MAX_SEEDS rd.1 < t.seed ∧ p.1 = (rd.1, t.seed, t.name))
      rd.2 _ ?_ _ hacc2
    intro acc3 t ht hacc3
    by_cases hs : EXPECTED_MAX_SEEDS rd.1 < t.seed
    · rw [if_pos hs]
      intro p hp
      rcases mem_bumpCount hp with hk | hk
      · exact ⟨b, hb, rd, hrd, hc, t, ht, hs, hk⟩
      · exact hacc3 p hk
    · rw [if_neg hs]; exact hacc3

theorem roundHits_le_one (k : String × Nat × String) (p : String × List Team)
    (hnd : (p.2.map (fun t => (t.seed, t.name))).Nodup) :
    roundHits k p ≤ if p.1 = k.1 then 1 else 0 := by
  by_cases hc : p.1 = "Champion"
  · simp only [roundHits, if_pos hc]
    exact Nat.zero_le _
  · simp only [roundHits, if_neg hc]
    by_cases hk : p.1 = k.1
    · rw [if_pos hk]
      have hmap : ∀ t ∈ p.2, teamHits p.1 k t =
          if (EXPECTED_MAX_SEEDS p.1 < t.seed) ∧
            ((fun s => (s.seed, s.name)) t = (k.2.1, k.2.2)) then 1 else 0 := by
        intro t _
        have hiff : ((p.1, t.seed, t.name) = k) ↔ ((t.seed, t.name) = (k.2.1, k.2.2)) := by
          obtain ⟨k1, k2, k3⟩ := k
          simp only [Prod.mk.injEq] at hk ⊢
          simp [hk]
        simp only [teamHits, hiff]
      rw [List.map_congr_left hmap]
      exact indicator_sum_le_one (fun s => (s.seed, s.name))
        (fun t => EXPECTED_MAX_SEEDS p.1 < t.seed) (k.2.1, k.2.2) p.2 hnd
    · rw [if_neg hk]
      have hz : (p.2.map (teamHits p.1 k)).sum = 0 := by
        apply List.sum_eq_zero
        intro v hv
        simp only [List.mem_map] at hv
        obtain ⟨t, _, htv⟩ := hv
        have hcond : ¬ (EXPECTED_MAX_SEEDS p.1 < t.seed ∧ (p.1, t.seed, t.name) = k) := by
          rintro ⟨_, h2⟩
          exact hk (congrArg Prod.fst h2)
        rw [teamHits, if_neg hcond] at htv
        exact htv.symm
      omega

theorem bracketHits_le_one (k : String × Nat × String) (b : BracketSim)
    (h1 : ((b.result.rounds).map Prod.fst).Nodup)
    (h2 : ∀ p ∈ b.result.rounds, (p.2.map (fun t => (t.seed, t.name))).Nodup) :
    bracketHits k b ≤ 1 := by
  have hle : (b.result.rounds.map (roundHits k)).sum ≤
      (b.result.rounds.map (fun p => if p.1 = k.1 then 1 else 0)).sum :=
    List.sum_le_sum (fun p hp => roundHits_le_one k p (h2 p hp))
  have h3 : (b.result.rounds.map (fun p => if p.1 = k.1 then 1 else 0)).sum ≤ 1 := by
    have h4 := indicator_sum_le_one (Prod.fst)
      (fun _ : String × List Team => True) k.1 b.result.rounds h1
    simpa using h4
  exact le_trans hle h3

theorem mem_underdog_counts_le (bs : List BracketSim)
    (hkeys : ∀ b ∈ bs, ((b.result.rounds).map Prod.fst).Nodup)
    (hteams : ∀ b ∈ bs, ∀ p ∈ b.result.rounds,
      (p.2.map (fun t => (t.seed, t.name))).Nodup) :
    ∀ p ∈ underdog_counts bs, p.2 ≤ bs.length := by
  intro p hp
  have hv : valAt (underdog_counts bs) p.1 = p.2 :=
    valAt_of_mem (nodup_fst_underdog_counts bs) hp
  rw [valAt_underdog_counts] at hv
  rw [← hv]
  have hlen : (bs.map (bracketHits p.1)).sum ≤ (bs.map (bracketHits p.1)).length := by
    apply sum_le_length
    intro x hx
    simp only [List.mem_map] at hx
    obtain ⟨b, hb, hbx⟩ := hx
    rw [← hbx]
    exact bracketHits_le_one p.1 b (hkeys b hb) (hteams b hb)
  simpa using hlen

theorem sum_champion_fold (bs : List BracketSim) :
    ∀ acc : List ((Nat × String × String) × Nat),
      ((bs.foldl (fun acc b =>
        bumpCount acc (b.result.champion.seed, b.result.champion.name,
          b.result.champion.conference)) acc).map (fun p => p.2)).sum =
      ((acc.map (fun p => p.2)).sum) + bs.length := by
  induction bs with
  | nil => simp
  | cons b bs ih =>
    intro acc
    rw [List.foldl_cons, ih, sum_bumpCount]
    simp only [List.length_cons]
    omega

theorem sum_champion_counts (bs : List BracketSim) :
    ((champion_counts bs).map (fun p => p.2)).sum = bs.length := by
  have h := sum_champion_fold bs []
  simpa [champion_counts] using h

theorem foldl_bump_ne_nil (bs : List BracketSim) :
    ∀ acc : List ((Nat × String × String) × Nat), acc ≠ [] →
      bs.foldl (fun acc b =>
        bumpCount acc (b.result.champion.seed, b.result.champion.name,
          b.result.champion.conference)) acc ≠ [] := by
  induction bs with
  | nil => intro acc h; simpa using h
  | cons b bs ih =>
    intro acc _
    rw [List.foldl_cons]
    exact ih _ (bumpCount_ne_nil _ _)

theorem champion_counts_ne_nil {bs : List BracketSim} (h : bs ≠ []) :
    champion_counts bs ≠ [] := by
  cases bs with
  | nil => exact absurd rfl h
  | cons b bs =>
    unfold champion_counts
    rw [List.foldl_cons]
    exact foldl_bump_ne_nil bs _ (bumpCount_ne_nil _ _)

theorem nodup_fst_upset_stats (bs : List BracketSim) :
    ((upset_stats bs).map Prod.fst).Nodup := by
  unfold upset_stats
  refine foldl_preserve
    (fun acc : List (String × List Nat) => (acc.map Prod.fst).Nodup)
    _ ?_ bs [] (by simp)
  intro acc b hacc
  refine foldl_preserve
    (fun acc2 : List (String × List Nat) => (acc2.map Prod.fst).Nodup)
    _ ?_ _ _ hacc
  intro acc2 p hacc2
  by_cases hc : p.1 = "Champion"
  · rw [if_pos hc]; exact hacc2
  · rw [if_neg hc]; exact nodup_fst_addSample _ _ hacc2

theorem origin_upset_stats (bs : List BracketSim) :
    ∀ p ∈ upset_stats bs, ∃ b ∈ bs, ∃ rd ∈ b.result.rounds,
      rd.1 ≠ "Champion" ∧ p.1 = rd.1 := by
  unfold upset_stats
  refine foldl_preserve_mem
    (fun acc : List (String × List Nat) =>
      ∀ p ∈ acc, ∃ b ∈ bs, ∃ rd ∈ b.result.rounds, rd.1 ≠ "Champion" ∧ p.1 = rd.1)
    bs _ ?_ [] (by simp)
  intro acc b hb hacc
  refine foldl_preserve_mem
    (fun acc2 : List (String × List Nat) =>
      ∀ p ∈ acc2, ∃ b ∈ bs, ∃ rd ∈ b.result.rounds, rd.1 ≠ "Champion" ∧ p.1 = rd.1)
    b.result.rounds _ ?_ _ hacc
  intro acc2 rd hrd hacc2
  by_cases hc : rd.1 = "Champion"
  · rw [if_pos hc]; exact hacc2
  · rw [if_neg hc]
    intro p hp
    rcases mem_addSample hp with hk | hk
    · exact ⟨b, hb, rd, hrd, hc, hk⟩
    · exact hacc2 p hk

theorem summaryLE_trans : ∀ a b c : SummaryRow,
    summaryLE a b = true → summaryLE b c = true → summaryLE a c = true := by
  intro a b c hab hbc
  simp only [summaryLE, decide_eq_true_eq] at hab hbc ⊢
  omega

theorem summaryLE_total : ∀ a b : SummaryRow,
    (summaryLE a b || summaryLE b a) = true := by
  intro a b
  simp only [summaryLE, Bool.or_eq_true, decide_eq_true_eq]
  omega

theorem underdogLE_trans : ∀ a b c : UnderdogRow,
    underdogLE a b = true → underdogLE b c = true → underdogLE a c = true := by
  intro a b c hab hbc
  simp only [underdogLE, Bool.or_eq_true, Bool.and_eq_true, decide_eq_true_eq]
    at hab hbc ⊢
  rcases hab with h1 | ⟨h1, h2⟩ <;> rcases hbc with h3 | ⟨h3, h4⟩
  · exact Or.inl (lt_trans h1 h3)
  · exact Or.inl (h3 ▸ h1)
  · exact Or.inl (h1 ▸ h3)
  · exact Or.inr ⟨h1.trans h3, le_trans h4 h2⟩

theorem underdogLE_total : ∀ a b : UnderdogRow,
    (underdogLE a b || underdogLE b a) = true := by
  intro a b
  simp only [underdogLE, Bool.or_eq_true, Bool.and_eq_true, decide_eq_true_eq]
  rcases lt_trichotomy (roundIdx a.make_it_to) (roundIdx b.make_it_to) with h | h | h
  · exact Or.inl (Or.inl h)
  · rcases le_total a.frequency b.frequency with hf | hf
    · exact Or.inr (Or.inr ⟨h.symm, hf⟩)
    · exact Or.inl (Or.inr ⟨h, hf⟩)
  · exact Or.inr (Or.inl h)

theorem championLE_trans : ∀ a b c : ChampionRow,
    championLE a b = true → championLE b c = true → championLE a c = true := by
  intro a b c hab hbc
  simp only [championLE, decide_eq_true_eq] at hab hbc ⊢
  exact le_trans hbc hab

theorem championLE_total : ∀ a b : ChampionRow,
    (championLE a b || championLE b a) = true := by
  intro a b
  simp only [championLE, Bool.or_eq_true, decide_eq_true_eq]
  exact le_total b.frequency a.frequency

theorem mem_rows_underdogs {bs : List BracketSim} {n : Nat} {row : UnderdogRow}
    (hrow : row ∈ (find_common_underdogs bs n).rows) :
    ∃ kc ∈ underdog_counts bs,
      row = UnderdogRow.mk kc.1.1 kc.1.2.1 kc.1.2.2 ((kc.2 : ℚ) / (n : ℚ)) := by
  simp only [find_common_underdogs] at hrow
  by_cases he : ((underdog_counts bs).map (fun kc =>
      UnderdogRow.mk kc.1.1 kc.1.2.1 kc.1.2.2 ((kc.2 : ℚ) / (n : ℚ)))).isEmpty
  · simp only [he, if_true] at hrow
    simp at hrow
  · simp only [he, if_false] at hrow
    have hrow2 := (List.mergeSort_perm ((underdog_counts bs).map (fun kc =>
      UnderdogRow.mk kc.1.1 kc.1.2.1 kc.1.2.2 ((kc.2 : ℚ) / (n : ℚ)))) underdogLE).mem_iff.mp hrow
    obtain ⟨kc, hkc, heq⟩ := List.mem_map.mp hrow2
    exact ⟨kc, hkc, heq.symm⟩

theorem filter_singleton_find {α : Type _} (q : α → Bool) :
    ∀ (l : List α) (p : α), l.filter q = [p] → l.find? q = some p := by
  intro l
  induction l with
  | nil => intro p hp; simp at hp
  | cons x xs ih =>
    intro p hp
    by_cases hq : q x
    · rw [List.filter_cons_of_pos hq] at hp
      rw [List.find?_cons_of_pos _ hq]
      exact congrArg some (List.cons.injEq .. ▸ hp).1
    · rw [List.filter_cons_of_neg (by simpa using hq)] at hp
      rw [List.find?_cons_of_neg _ (by simpa using hq)]
      exact ih p hp

theorem flatMap_of_single (bs : List BracketSim) (r : String)
    (hone : ∀ b ∈ bs, (b.result.rounds.filter (fun p => p.1 == r)).length = 1) :
    bs.flatMap (fun b => (b.result.rounds.filter (fun p => p.1 == r)).map
      (fun p => countUpsets b.games p.2)) =
    bs.map (fun b => countUpsets b.games (roundTeams b r)) := by
  induction bs with
  | nil => simp
  | cons b bs ih =>
    rw [List.flatMap_cons, List.map_cons,
      ih (fun b2 hb2 => hone b2 (List.mem_cons_of_mem b hb2))]
    have h1 := hone b (List.mem_cons_self b bs)
    obtain ⟨p, hp⟩ := List.length_eq_one.mp h1
    have hfind := filter_singleton_find _ b.result.rounds p hp
    rw [hp]
    simp [roundTeams, hfind]

/-- C10: with no winning brackets (`simulate_pools` never run), the champion
analysis raises (pandas `KeyError` on the missing `frequency` column of a
zero-row frame) instead of returning an empty table. -/
theorem analyze_champion_picks_empty_raises (num_pools : Nat) :
    analyze_champion_picks [] num_pools = Except.error "KeyError: frequency" := rfl

/-- C1: on a no-underdog input the table comes back empty but with column
schema `["round", "seed", "team", "frequency"]` — the `round` column is not
relabelled `make_it_to`, contradicting the full output schema contract. -/
theorem find_common_underdogs_empty_schema :
    find_common_underdogs [demoCalm] 1 =
      UnderdogTable.mk ["round", "seed", "team", "frequency"] [] ∧
    (find_common_underdogs [demoCalm] 1).columns ≠
      ["make_it_to", "seed", "team", "frequency"] := by
  constructor
  · rfl
  · decide

/-- C7: upset factors follow the linear spread
`factor j = 0.1 + (j / entries_per_pool) * 0.3` and are strictly increasing
in `j`. -/
theorem upset_factors_spec (m : Nat) (hm : 1 ≤ m) :
    (upset_factors m).length = m ∧
    (∀ j, j < m → (upset_factors m).getD j 0 =
      1/10 + ((j : ℚ) / (m : ℚ)) * (3/10)) ∧
    (upset_factors m).Pairwise (fun a b => a < b) := by
  refine ⟨by rw [upset_factors, List.length_map, List.length_range], ?_, ?_⟩
  · intro j hj
    rw [upset_factors, List.getD_eq_getElem?_getD, List.getElem?_map,
      List.getElem?_range hj]
    rfl
  · rw [upset_factors, List.pairwise_map]
    have hm0 : (0 : ℚ) < (m : ℚ) := by exact_mod_cast hm
    refine (List.pairwise_lt_range m).imp ?_
    intro a b hab
    have hab2 : (a : ℚ) < (b : ℚ) := by exact_mod_cast hab
    gcongr

/-- C7 witness: concrete check at `entries_per_pool = 10`, including
`factor 0 = 0.1` and `factor 9 = 0.37`. -/
theorem upset_factors_spec_witness :
    1 ≤ 10 ∧
    ((upset_factors 10).length = 10 ∧
      (∀ j, j < 10 → (upset_factors 10).getD j 0 =
        1/10 + ((j : ℚ) / (10 : ℚ)) * (3/10)) ∧
      (upset_factors 10).Pairwise (fun a b => a < b)) ∧
    (upset_factors 10).getD 0 0 = 1/10 ∧
    (upset_factors 10).getD 9 0 = 37/100 := by
  refine ⟨by norm_num, upset_factors_spec 10 (by norm_num), ?_, ?_⟩
  · norm_num [upset_factors, List.range_succ]
  · norm_num [upset_factors, List.range_succ]

/-- C6: when every seed is at most 16, no output row of
`find_common_underdogs` carries the round label "First Round", since its
expected-max-seed threshold of 16 can never be strictly exceeded. -/
theorem no_first_round_underdogs (bs : List BracketSim) (n : Nat)
    (hseeds : ∀ b ∈ bs, ∀ p ∈ b.result.rounds, ∀ t ∈ p.2, t.seed ≤ 16) :
    ∀ row ∈ (find_common_underdogs bs n).rows, row.make_it_to ≠ "First Round" := by
  intro row hrow
  obtain ⟨kc, hkc, heq⟩ := mem_rows_underdogs hrow
  obtain ⟨b, hb, rd, hrd, _, t, ht, hts, hkey⟩ := origin_underdog_counts bs kc hkc
  intro hfr
  have hmk : row.make_it_to = kc.1.1 := by rw [heq]
  have hrd1 : rd.1 = "First Round" := by
    have := congrArg Prod.fst hkey
    simp at this
    rw [← this, ← hmk]
    exact hfr
  rw [hrd1] at hts
  have hle := hseeds b hb rd hrd t ht
  simp [EXPECTED_MAX_SEEDS] at hts
  omega

/-- C6 witness: concrete check on a bracket whose 9 seed reaches the second
round. -/
theorem no_first_round_underdogs_witness :
    (∀ b ∈ [demoBracket], ∀ p ∈ b.result.rounds, ∀ t ∈ p.2, t.seed ≤ 16) ∧
    (∀ row ∈ (find_common_underdogs [demoBracket] 3).rows,
      row.make_it_to ≠ "First Round") :=
  ⟨by decide, no_first_round_underdogs [demoBracket] 3 (by decide)⟩

/-- C5: every frequency of a `find_common_underdogs` row lies in (0, 1] and
equals its triple's count divided by `num_pools`, and the rows are sorted by
canonical round order ascending, then frequency descending within a round
(stated for well-formed tournament results: distinct round keys, no duplicate
(seed, name) inside a round, canonical round names, at most `num_pools`
winning brackets). -/
theorem underdog_frequencies_spec (bs : List BracketSim) (n : Nat)
    (hn : 1 ≤ n) (hlen : bs.length ≤ n)
    (hkeys : ∀ b ∈ bs, ((b.result.rounds).map Prod.fst).Nodup)
    (hteams : ∀ b ∈ bs, ∀ p ∈ b.result.rounds,
      (p.2.map (fun t => (t.seed, t.name))).Nodup)
    (hcanon : ∀ b ∈ bs, ∀ p ∈ b.result.rounds,
      p.1 = "Champion" ∨ p.1 ∈ ROUND_ORDER) :
    (∀ row ∈ (find_common_underdogs bs n).rows,
      0 < row.frequency ∧ row.frequency ≤ 1 ∧
      row.make_it_to ∈ ROUND_ORDER ∧
      ∃ c, ((row.make_it_to, row.seed, row.team), c) ∈ underdog_counts bs ∧
        row.frequency = (c : ℚ) / (n : ℚ)) ∧
    (find_common_underdogs bs n).rows.Pairwise (fun a b =>
      roundIdx a.make_it_to < roundIdx b.make_it_to ∨
        (roundIdx a.make_it_to = roundIdx b.make_it_to ∧
          b.frequency ≤ a.frequency)) := by
  constructor
  · intro row hrow
    obtain ⟨kc, hkc, heq⟩ := mem_rows_underdogs hrow
    have hc1 : 1 ≤ kc.2 := pos_underdog_counts bs kc hkc
    have hc2 : kc.2 ≤ bs.length := mem_underdog_counts_le bs hkeys hteams kc hkc
    have hn0 : (0 : ℚ) < (n : ℚ) := by exact_mod_cast hn
    have hfreq : row.frequency = (kc.2 : ℚ) / (n : ℚ) := by rw [heq]
    obtain ⟨b, hb, rd, hrd, hcc, t, ht, hts, hkey⟩ := origin_underdog_counts bs kc hkc
    have hmk : row.make_it_to = rd.1 := by
      rw [heq]
      exact congrArg Prod.fst hkey
    refine ⟨?_, ?_, ?_, kc.2, ?_, hfreq⟩
    · rw [hfreq]
      apply div_pos _ hn0
      exact_mod_cast hc1
    · rw [hfreq, div_le_one hn0]
      have h3 : (kc.2 : ℚ) ≤ (bs.length : ℚ) := by exact_mod_cast hc2
      have h4 : (bs.length : ℚ) ≤ (n : ℚ) := by exact_mod_cast hlen
      linarith
    · rcases hcanon b hb rd hrd with h | h
      · exact absurd h hcc
      · rw [hmk]; exact h
    · have hkc1 : (row.make_it_to, row.seed, row.team) = kc.1 := by
        rw [heq]
      rw [hkc1]
      simpa using hkc
  · simp only [find_common_underdogs]
    by_cases he : ((underdog_counts bs).map (fun kc =>
        UnderdogRow.mk kc.1.1 kc.1.2.1 kc.1.2.2 ((kc.2 : ℚ) / (n : ℚ)))).isEmpty
    · simp [he]
    · simp only [he, if_false]
      have h := List.sorted_mergeSort underdogLE_trans underdogLE_total
        ((underdog_counts bs).map (fun kc =>
          UnderdogRow.mk kc.1.1 kc.1.2.1 kc.1.2.2 ((kc.2 : ℚ) / (n : ℚ))))
      refine h.imp ?_
      intro a b hab
      simpa only [underdogLE, Bool.or_eq_true, Bool.and_eq_true,
        decide_eq_true_eq] using hab

/-- C5 witness: concrete run with one winning bracket over two pools. -/
theorem underdog_frequencies_spec_witness :
    (1 ≤ 2 ∧ [demoBracket].length ≤ 2 ∧
      (∀ b ∈ [demoBracket], ((b.result.rounds).map Prod.fst).Nodup) ∧
      (∀ b ∈ [demoBracket], ∀ p ∈ b.result.rounds,
        (p.2.map (fun t => (t.seed, t.name))).Nodup) ∧
      (∀ b ∈ [demoBracket], ∀ p ∈ b.result.rounds,
        p.1 = "Champion" ∨ p.1 ∈ ROUND_ORDER)) ∧
    ((∀ row ∈ (find_common_underdogs [demoBracket] 2).rows,
      0 < row.frequency ∧ row.frequency ≤ 1 ∧
      row.make_it_to ∈ ROUND_ORDER ∧
      ∃ c, ((row.make_it_to, row.seed, row.team), c) ∈ underdog_counts [demoBracket] ∧
        row.frequency = (c : ℚ) / (2 : ℚ)) ∧
    (find_common_underdogs [demoBracket] 2).rows.Pairwise (fun a b =>
      roundIdx a.make_it_to < roundIdx b.make_it_to ∨
        (roundIdx a.make_it_to = roundIdx b.make_it_to ∧
          b.frequency ≤ a.frequency))) :=
  ⟨⟨by decide, by decide, by decide, by decide, by decide⟩,
    underdog_frequencies_spec [demoBracket] 2 (by decide) (by decide)
      (by decide) (by decide) (by decide)⟩

/-- C8: `analyze_upsets` rows come out sorted by the canonical round order and
"Champion" never appears as a row (stated for results whose round names are
canonical or "Champion"). -/
theorem analyze_upsets_sorted (bs : List BracketSim)
    (hcanon : ∀ b ∈ bs, ∀ p ∈ b.result.rounds,
      p.1 = "Champion" ∨ p.1 ∈ ROUND_ORDER) :
    (analyze_upsets bs).Pairwise (fun a b => roundIdx a.round ≤ roundIdx b.round) ∧
    ∀ row ∈ analyze_upsets bs, row.round ≠ "Champion" ∧ row.round ∈ ROUND_ORDER := by
  constructor
  · have h := List.sorted_mergeSort summaryLE_trans summaryLE_total
      ((upset_stats bs).map mkSummaryRow)
    rw [analyze_upsets]
    refine h.imp ?_
    intro a b hab
    simpa only [summaryLE, decide_eq_true_eq] using hab
  · intro row hrow
    rw [analyze_upsets] at hrow
    have hrow2 := (List.mergeSort_perm ((upset_stats bs).map mkSummaryRow)
      summaryLE).mem_iff.mp hrow
    obtain ⟨p, hp, hpr⟩ := List.mem_map.mp hrow2
    obtain ⟨b, hb, rd, hrd, hcc, heq⟩ := origin_upset_stats bs p hp
    have hround : row.round = rd.1 := by
      rw [← hpr]
      simpa [mkSummaryRow] using heq
    rcases hcanon b hb rd hrd with h | h
    · exact absurd h hcc
    · rw [hround]; exact ⟨hcc, h⟩

/-- C8 witness: concrete check on one winning bracket. -/
theorem analyze_upsets_sorted_witness :
    (∀ b ∈ [demoBracket], ∀ p ∈ b.result.rounds,
      p.1 = "Champion" ∨ p.1 ∈ ROUND_ORDER) ∧
    ((analyze_upsets [demoBracket]).Pairwise (fun a b =>
      roundIdx a.round ≤ roundIdx b.round) ∧
    ∀ row ∈ analyze_upsets [demoBracket],
      row.round ≠ "Champion" ∧ row.round ∈ ROUND_ORDER) :=
  ⟨by decide, analyze_upsets_sorted [demoBracket] (by decide)⟩

theorem countP_key_of_nodup (l : List (String × List Nat)) (r : String)
    (hnd : (l.map Prod.fst).Nodup) (hmem : ∃ vs, (r, vs) ∈ l) :
    l.countP (fun p => p.1 == r) = 1 := by
  induction l with
  | nil => obtain ⟨vs, h⟩ := hmem; cases h
  | cons hd tl ih =>
    simp only [List.map_cons, List.nodup_cons] at hnd
    obtain ⟨vs, hmem2⟩ := hmem
    by_cases hh : hd.1 = r
    · rw [List.countP_cons_of_pos _ _ (by simpa using hh)]
      have hz : tl.countP (fun p => p.1 == r) = 0 := by
        rw [List.countP_eq_zero]
        intro p hp
        simp only [beq_iff_eq]
        intro hpr
        exact hnd.1 (hh ▸ hpr ▸ List.mem_map_of_mem Prod.fst hp)
      omega
    · rw [List.countP_cons_of_neg _ _ (by simpa using hh)]
      apply ih hnd.2
      rcases List.mem_cons.mp hmem2 with h | h
      · exact absurd (congrArg Prod.fst h.symm) hh
      · exact ⟨vs, h⟩

/-- C2: for every round except "Champion" occurring once in each re-simulated
result, the per-bracket sample recorded by `analyze_upsets` is the number of
advancing teams that win some game with winner seed strictly above the first
listed team's seed, and the unique output row of that round reports the mean,
standard deviation (as its square `var_upsets`), min and max of exactly these
samples. -/
theorem analyze_upsets_per_round (bs : List BracketSim) (r : String)
    (hne : bs ≠ []) (hr : r ≠ "Champion")
    (hone : ∀ b ∈ bs, (b.result.rounds.filter (fun p => p.1 == r)).length = 1) :
    samplesAt (upset_stats bs) r =
      bs.map (fun b => countUpsets b.games (roundTeams b r)) ∧
    (∃ row ∈ analyze_upsets bs,
      row.round = r ∧
      row.avg_upsets = meanQ (bs.map (fun b => countUpsets b.games (roundTeams b r))) ∧
      row.var_upsets = sampleVarQ (bs.map (fun b => countUpsets b.games (roundTeams b r))) ∧
      row.min_upsets = minNat (bs.map (fun b => countUpsets b.games (roundTeams b r))) ∧
      row.max_upsets = maxNat (bs.map (fun b => countUpsets b.games (roundTeams b r)))) ∧
    (analyze_upsets bs).countP (fun row => row.round == r) = 1 := by
  have hsamp : samplesAt (upset_stats bs) r =
      bs.map (fun b => countUpsets b.games (roundTeams b r)) := by
    rw [samplesAt_upset_stats bs r hr, flatMap_of_single bs r hone]
  have hsne : bs.map (fun b => countUpsets b.games (roundTeams b r)) ≠ [] := by
    simpa using hne
  have hmem : (r, bs.map (fun b => countUpsets b.games (roundTeams b r))) ∈
      upset_stats bs := by
    have h2 := mem_of_samplesAt (l := upset_stats bs) (r := r)
      (by rw [hsamp]; exact hsne)
    rwa [hsamp] at h2
  refine ⟨hsamp, ?_, ?_⟩
  · have hmemRow : mkSummaryRow
        (r, bs.map (fun b => countUpsets b.games (roundTeams b r))) ∈
        analyze_upsets bs := by
      rw [analyze_upsets]
      exact (List.mergeSort_perm ((upset_stats bs).map mkSummaryRow)
        summaryLE).mem_iff.mpr (List.mem_map_of_mem mkSummaryRow hmem)
    exact ⟨_, hmemRow, rfl, rfl, rfl, rfl, rfl⟩
  · rw [analyze_upsets,
      (List.mergeSort_perm ((upset_stats bs).map mkSummaryRow) summaryLE).countP_eq,
      List.countP_map]
    have hfun : ((fun row : SummaryRow => row.round == r) ∘ mkSummaryRow) =
        (fun p : String × List Nat => p.1 == r) := funext fun p => rfl
    rw [hfun]
    exact countP_key_of_nodup (upset_stats bs) r (nodup_fst_upset_stats bs)
      ⟨bs.map (fun b => countUpsets b.games (roundTeams b r)), hmem⟩

/-- C2 witness: two winning brackets, round "First Round"; the upset-through
game of `demoBracket` contributes sample 1, `demoCalm` contributes 0. -/
theorem analyze_upsets_per_round_witness :
    ([demoBracket, demoCalm] ≠ ([] : List BracketSim) ∧
      "First Round" ≠ "Champion" ∧
      (∀ b ∈ [demoBracket, demoCalm],
        (b.result.rounds.filter (fun p => p.1 == "First Round")).length = 1)) ∧
    (samplesAt (upset_stats [demoBracket, demoCalm]) "First Round" =
      [demoBracket, demoCalm].map
        (fun b => countUpsets b.games (roundTeams b "First Round")) ∧
    (∃ row ∈ analyze_upsets [demoBracket, demoCalm],
      row.round = "First Round" ∧
      row.avg_upsets = meanQ ([demoBracket, demoCalm].map
        (fun b => countUpsets b.games (roundTeams b "First Round"))) ∧
      row.var_upsets = sampleVarQ ([demoBracket, demoCalm].map
        (fun b => countUpsets b.games (roundTeams b "First Round"))) ∧
      row.min_upsets = minNat ([demoBracket, demoCalm].map
        (fun b => countUpsets b.games (roundTeams b "First Round"))) ∧
      row.max_upsets = maxNat ([demoBracket, demoCalm].map
        (fun b => countUpsets b.games (roundTeams b "First Round")))) ∧
    (analyze_upsets [demoBracket, demoCalm]).countP
      (fun row => row.round == "First Round") = 1) :=
  ⟨⟨by decide, by decide, by decide⟩,
    analyze_upsets_per_round [demoBracket, demoCalm] "First Round"
      (by decide) (by decide) (by decide)⟩

theorem analyze_champion_picks_ok (bs : List BracketSim) (n : Nat)
    (h : champion_counts bs ≠ []) :
    analyze_champion_picks bs n = Except.ok
      (((champion_counts bs).map (fun kc =>
        ChampionRow.mk kc.1.1 kc.1.2.1 kc.1.2.2
          ((kc.2 : ℚ) / (n : ℚ)))).mergeSort championLE) := by
  simp only [analyze_champion_picks]
  rw [if_neg (by simp [List.isEmpty_iff, h])]

/-- C4: when `winning_brackets` holds one bracket per pool, the frequencies
of `analyze_champion_picks` sum to exactly 1, each equals its champion
count over `num_pools`, and rows are sorted descending by frequency. -/
theorem champion_frequencies_spec (bs : List BracketSim) (n : Nat)
    (hlen : bs.length = n) (hn : 1 ≤ n) :
    ∃ rows, analyze_champion_picks bs n = Except.ok rows ∧
      (rows.map (fun row => row.frequency)).sum = 1 ∧
      (∀ row ∈ rows, ∃ c,
        ((row.seed, row.team, row.conference), c) ∈ champion_counts bs ∧
        row.frequency = (c : ℚ) / (n : ℚ)) ∧
      rows.Pairwise (fun a b => b.frequency ≤ a.frequency) := by
  have hbs : bs ≠ [] := by
    intro h
    rw [h] at hlen
    simp at hlen
    omega
  have hcne := champion_counts_ne_nil hbs
  refine ⟨_, analyze_champion_picks_ok bs n hcne, ?_, ?_, ?_⟩
  · have hperm := (List.mergeSort_perm ((champion_counts bs).map (fun kc =>
      ChampionRow.mk kc.1.1 kc.1.2.1 kc.1.2.2 ((kc.2 : ℚ) / (n : ℚ))))
      championLE).map (fun row => row.frequency)
    rw [hperm.sum_eq, List.map_map]
    have hfun : ((fun row : ChampionRow => row.frequency) ∘ (fun kc =>
        ChampionRow.mk kc.1.1 kc.1.2.1 kc.1.2.2 ((kc.2 : ℚ) / (n : ℚ)))) =
        (fun kc : (Nat × String × String) × Nat => (kc.2 : ℚ) / (n : ℚ)) :=
      funext fun kc => rfl
    rw [hfun, sum_map_div]
    have hcast : ((champion_counts bs).map
        (fun kc : (Nat × String × String) × Nat => (kc.2 : ℚ))).sum =
        (((((champion_counts bs).map
          (fun p : (Nat × String × String) × Nat => p.2)).sum : ℕ)) : ℚ) := by
      rw [Nat.cast_list_sum, List.map_map]
      rfl
    rw [hcast, sum_champion_counts, hlen]
    have hn0 : (n : ℚ) ≠ 0 := by
      have : (0 : ℚ) < (n : ℚ) := by exact_mod_cast hn
      exact ne_of_gt this
    exact div_self hn0
  · intro row hrow
    have hrow2 := (List.mergeSort_perm _ championLE).mem_iff.mp hrow
    obtain ⟨kc, hkc, heq⟩ := List.mem_map.mp hrow2
    refine ⟨kc.2, ?_, by rw [← heq]⟩
    have hkey : (row.seed, row.team, row.conference) = kc.1 := by
      rw [← heq]
    rw [hkey]
    simpa using hkc
  · have h := List.sorted_mergeSort championLE_trans championLE_total
      ((champion_counts bs).map (fun kc =>
        ChampionRow.mk kc.1.1 kc.1.2.1 kc.1.2.2 ((kc.2 : ℚ) / (n : ℚ))))
    refine h.imp ?_
    intro a b hab
    simpa only [championLE, decide_eq_true_eq] using hab

/-- C4 witness: one pool, one winning bracket, one champion. -/
theorem champion_frequencies_spec_witness :
    ([demoBracket].length = 1 ∧ 1 ≤ 1) ∧
    (∃ rows, analyze_champion_picks [demoBracket] 1 = Except.ok rows ∧
      (rows.map (fun row => row.frequency)).sum = 1 ∧
      (∀ row ∈ rows, ∃ c,
        ((row.seed, row.team, row.conference), c) ∈ champion_counts [demoBracket] ∧
        row.frequency = (c : ℚ) / (1 : ℚ)) ∧
      rows.Pairwise (fun a b => b.frequency ≤ a.frequency)) :=
  ⟨⟨by decide, by decide⟩, champion_frequencies_spec [demoBracket] 1 (by decide) (by decide)⟩

theorem run_pool_ok (m i : Nat) (top : PoolRow) (rest : List PoolRow)
    (hmatch : ∃ e ∈ pool_entries i m, e.1 = top.name) (st : DriverState) :
    ∃ w, run_pool m i (Except.ok (top :: rest)) st =
      Except.ok ⟨st.winning_brackets ++ [w],
        st.all_results ++ (top :: rest).map (fun r => (i, r))⟩ := by
  obtain ⟨e, he, hn⟩ := hmatch
  have hne : (pool_entries i m).filter (fun e2 => e2.1 == top.name) ≠ [] := by
    intro hemp
    have hmem : e ∈ (pool_entries i m).filter (fun e2 => e2.1 == top.name) :=
      List.mem_filter.mpr ⟨he, by simp [hn]⟩
    rw [hemp] at hmem
    cases hmem
  cases hf : (pool_entries i m).filter (fun e2 => e2.1 == top.name) with
  | nil => exact absurd hf hne
  | cons e0 es => exact ⟨e0.2, by simp [run_pool, hf]⟩

theorem run_pools_ok (m : Nat) (pool_sim : Nat → Except String (List PoolRow)) :
    ∀ (idxs : List Nat),
      (∀ i ∈ idxs, ∃ top rest, pool_sim i = Except.ok (top :: rest) ∧
        ∃ e ∈ pool_entries i m, e.1 = top.name) →
      ∀ st : DriverState, ∃ ws : List (Nat × Nat),
        run_pools m pool_sim idxs st = Except.ok
          ⟨st.winning_brackets ++ ws,
            st.all_results ++ idxs.flatMap (fun i =>
              (sim_rows pool_sim i).map (fun r => (i, r)))⟩ ∧
        ws.length = idxs.length := by
  intro idxs
  induction idxs with
  | nil =>
    intro _ st
    exact ⟨[], by simp [run_pools], by simp⟩
  | cons i idxs ih =>
    intro h st
    obtain ⟨top, rest, hok, hmatch⟩ := h i (List.mem_cons_self i idxs)
    obtain ⟨w, hw⟩ := run_pool_ok m i top rest hmatch st
    have hrows : sim_rows pool_sim i = top :: rest := by simp [sim_rows, hok]
    have hrun : run_pool m i (pool_sim i) st = Except.ok
        ⟨st.winning_brackets ++ [w],
          st.all_results ++ (top :: rest).map (fun r => (i, r))⟩ := by
      rw [hok]; exact hw
    obtain ⟨ws, hws, hlen⟩ := ih (fun j hj => h j (List.mem_cons_of_mem i hj))
      ⟨st.winning_brackets ++ [w],
        st.all_results ++ (top :: rest).map (fun r => (i, r))⟩
    refine ⟨w :: ws, ?_, by simp [hlen]⟩
    simp only [run_pools, hrun]
    rw [hws]
    simp [List.append_assoc, List.flatMap_cons, hrows]

theorem flat_filter_not_mem (ps : Nat → Except String (List PoolRow)) (i : Nat)
    (idxs : List Nat) (hni : i ∉ idxs) :
    ((idxs.flatMap (fun j => (sim_rows ps j).map (fun r => (j, r)))).filter
      (fun rr => rr.1 == i)) = [] := by
  rw [List.filter_eq_nil_iff]
  intro a ha
  simp only [List.mem_flatMap, List.mem_map] at ha
  obtain ⟨j, hj, r, _, rfl⟩ := ha
  simp only [beq_iff_eq]
  intro h
  exact hni (h ▸ hj)

theorem flat_filter_count (ps : Nat → Except String (List PoolRow)) (i : Nat) :
    ∀ idxs : List Nat, idxs.Nodup → i ∈ idxs →
      ((idxs.flatMap (fun j => (sim_rows ps j).map (fun r => (j, r)))).filter
        (fun rr => rr.1 == i)).length = (sim_rows ps i).length := by
  intro idxs
  induction idxs with
  | nil => intro _ h; cases h
  | cons j idxs ih =>
    intro hnd hi
    simp only [List.nodup_cons] at hnd
    rw [List.flatMap_cons, List.filter_append, List.length_append]
    rcases List.mem_cons.mp hi with heq | hmem
    · subst heq
      have hall : (((sim_rows ps i).map (fun r => (i, r))).filter
          (fun rr => rr.1 == i)) = (sim_rows ps i).map (fun r => (i, r)) := by
        rw [List.filter_eq_self]
        intro a ha
        obtain ⟨r, _, rfl⟩ := List.mem_map.mp ha
        simp
      rw [hall, List.length_map, flat_filter_not_mem ps i idxs hnd.1]
      simp
    · have hji : ¬ (j = i) := fun h => hnd.1 (h ▸ hmem)
      have hz : (((sim_rows ps j).map (fun r => (j, r))).filter
          (fun rr => rr.1 == i)) = [] := by
        rw [List.filter_eq_nil_iff]
        intro a ha
        obtain ⟨r, _, rfl⟩ := List.mem_map.mp ha
        simpa using hji
      rw [hz]
      simpa using ih hnd.2 hmem

theorem flat_mem_fst (ps : Nat → Except String (List PoolRow))
    (idxs : List Nat) (i : Nat) :
    (i ∈ (idxs.flatMap (fun j => (sim_rows ps j).map (fun r => (j, r)))).map
      Prod.fst) ↔ ∃ j ∈ idxs, j = i ∧ sim_rows ps j ≠ [] := by
  simp only [List.mem_map, List.mem_flatMap]
  constructor
  · rintro ⟨a, ⟨j, hj, ha⟩, rfl⟩
    obtain ⟨r, hr, rfl⟩ := ha
    exact ⟨j, hj, rfl, fun h => by rw [h] at hr; cases hr⟩
  · rintro ⟨j, hj, rfl, hne⟩
    obtain ⟨r, hr⟩ : ∃ r, r ∈ sim_rows ps j := by
      cases hsr : sim_rows ps j with
      | nil => exact absurd hsr hne
      | cons r rs => exact ⟨r, by simp [hsr]⟩
    exact ⟨(j, r), ⟨j, hj, r, hr, rfl⟩, rfl⟩

/-- C3: when every `simulate_pool` call succeeds with a non-empty ranked
table whose winning name matches a registered entry, `simulate_pools`
returns: one winning bracket per pool, pool ids exactly `0..num_pools-1`
(so exactly `num_pools` distinct ids), and each id tags exactly the rows of
its own pool's result table. -/
theorem simulate_pools_spec (n m : Nat)
    (pool_sim : Nat → Except String (List PoolRow))
    (hs : ∀ i, i < n → ∃ top rest, pool_sim i = Except.ok (top :: rest) ∧
      ∃ e ∈ pool_entries i m, e.1 = top.name) :
    ∃ st, simulate_pools n m pool_sim = Except.ok st ∧
      st.winning_brackets.length = n ∧
      (∀ i, (i ∈ st.all_results.map Prod.fst) ↔ i < n) ∧
      (st.all_results.map Prod.fst).dedup.length = n ∧
      (∀ i, i < n →
        (st.all_results.filter (fun rr => rr.1 == i)).length =
          (sim_rows pool_sim i).length) := by
  obtain ⟨ws, hws, hlen⟩ := run_pools_ok m pool_sim (List.range n)
    (fun i hi => hs i (List.mem_range.mp hi)) ⟨[], []⟩
  have hsimne : ∀ i, i < n → sim_rows pool_sim i ≠ [] := by
    intro i hi
    obtain ⟨top, rest, hok, _⟩ := hs i hi
    simp [sim_rows, hok]
  have hmemiff : ∀ i, (i ∈ (((List.range n).flatMap (fun j =>
      (sim_rows pool_sim j).map (fun r => (j, r)))).map Prod.fst)) ↔ i < n := by
    intro i
    rw [flat_mem_fst]
    constructor
    · rintro ⟨j, hj, rfl, _⟩
      exact List.mem_range.mp hj
    · intro hi
      exact ⟨i, List.mem_range.mpr hi, rfl, hsimne i hi⟩
  refine ⟨_, hws, ?_, ?_, ?_, ?_⟩
  · simpa using hlen.trans (List.length_range n)
  · intro i
    simpa using hmemiff i
  · have hperm : ((([] : List (Nat × PoolRow)) ++ (List.range n).flatMap (fun j =>
        (sim_rows pool_sim j).map (fun r => (j, r)))).map Prod.fst).dedup.Perm
        (List.range n) := by
      rw [List.perm_ext_iff_of_nodup (List.nodup_dedup _) (List.nodup_range n)]
      intro a
      rw [List.mem_dedup, List.mem_range]
      simpa using hmemiff a
    simpa using hperm.length_eq.trans (List.length_range n)
  · intro i hi
    have h := flat_filter_count pool_sim i (List.range n) (List.nodup_range n)
      (List.mem_range.mpr hi)
    simpa using h

/-- C3 witness: two pools of two entries, the collaborator always ranking
`Entry_2` first with a one-row table. -/
theorem simulate_pools_spec_witness :
    (∀ i, i < 2 → ∃ top rest, demoSim i = Except.ok (top :: rest) ∧
      ∃ e ∈ pool_entries i 2, e.1 = top.name) ∧
    (∃ st, simulate_pools 2 2 demoSim = Except.ok st ∧
      st.winning_brackets.length = 2 ∧
      (∀ i, (i ∈ st.all_results.map Prod.fst) ↔ i < 2) ∧
      (st.all_results.map Prod.fst).dedup.length = 2 ∧
      (∀ i, i < 2 →
        (st.all_results.filter (fun rr => rr.1 == i)).length =
          (sim_rows demoSim i).length)) :=
  have hs : ∀ i, i < 2 → ∃ top rest, demoSim i = Except.ok (top :: rest) ∧
      ∃ e ∈ pool_entries i 2, e.1 = top.name :=
    fun i _ => ⟨PoolRow.mk (entry_name 1), [], rfl,
      ⟨(entry_name 1, (i, 1)), List.mem_map.mpr ⟨1, by simp, rfl⟩, rfl⟩⟩
  ⟨hs, simulate_pools_spec 2 2 demoSim hs⟩

theorem run_pool_fails (m i : Nat) (sim : Except String (List PoolRow))
    (hf : pool_failure m i sim) :
    ∀ st, ∃ msg, run_pool m i sim st = Except.error msg := by
  intro st
  match sim, hf with
  | Except.error e, _ => exact ⟨e, rfl⟩
  | Except.ok [], _ => exact ⟨_, rfl⟩
  | Except.ok (top :: rest), hf2 =>
    have hf3 : (pool_entries i m).filter (fun e => e.1 == top.name) = [] := hf2
    exact ⟨"IndexError: list index out of range", by simp [run_pool, hf3]⟩

theorem run_pools_error (m : Nat) (pool_sim : Nat → Except String (List PoolRow)) :
    ∀ (idxs : List Nat) (st : DriverState),
      (∃ i ∈ idxs, pool_failure m i (pool_sim i)) →
      ∃ msg, run_pools m pool_sim idxs st = Except.error msg := by
  intro idxs
  induction idxs with
  | nil =>
    rintro st ⟨i, hi, _⟩
    cases hi
  | cons j idxs ih =>
    rintro st ⟨i, hi, hf⟩
    cases hrun : run_pool m j (pool_sim j) st with
    | error msg => exact ⟨msg, by simp [run_pools, hrun]⟩
    | ok st2 =>
      rcases List.mem_cons.mp hi with heq | hmem
      · subst heq
        obtain ⟨msg, hmsg⟩ := run_pool_fails m i (pool_sim i) hf st
        rw [hmsg] at hrun
        cases hrun
      · obtain ⟨msg, hmsg⟩ := ih st2 ⟨i, hmem, hf⟩
        exact ⟨msg, by simp [run_pools, hrun, hmsg]⟩

/-- C9: if any pool in range fails — the collaborator raised, or no
registered entry matches the winning name — `simulate_pools` propagates the
error and the whole run aborts instead of skipping that pool. -/
theorem simulate_pools_aborts (n m : Nat)
    (pool_sim : Nat → Except String (List PoolRow)) (i : Nat)
    (hi : i < n) (hf : pool_failure m i (pool_sim i)) :
    ∃ msg, simulate_pools n m pool_sim = Except.error msg :=
  run_pools_error m pool_sim (List.range n) ⟨[], []⟩
    ⟨i, List.mem_range.mpr hi, hf⟩

/-- C9 witness: a single pool whose winning name "Nobody" matches no entry. -/
theorem simulate_pools_aborts_witness :
    (0 < 1 ∧ pool_failure 1 0 (demoBadSim 0)) ∧
    ∃ msg, simulate_pools 1 1 demoBadSim = Except.error msg :=
  have hf : pool_failure 1 0 (demoBadSim 0) :=
    (by decide : (pool_entries 0 1).filter (fun e => e.1 == "Nobody") = [])
  ⟨⟨by decide, hf⟩, simulate_pools_aborts 1 1 demoBadSim 0 (by decide) hf⟩

end BracketAnalysis
